import Mathlib

/-!
Verification of the MS²PIP peptide/modification encoding and batch
prediction pipeline.

This file is a shallow embedding of the relevant parts of the repository:

* `ms2pip/_utils/peptides.py` — the `Modifications` registry,
  `encode_peptide` and `apply_modifications`;
* `ms2pip/predict_xgboost.py` — `_split_list_by_lengths`, the per-ion-type
  reshaping/orientation step of `process_peptides_xgb`, `apply_mods`,
  `check_model_presence` and `check_model_integrity`;
* `ms2pip/exceptions.py` — exception classes, modelled as an inductive type.

Modelling conventions:

* Python dicts are insertion-ordered association lists (`PyDict`): insertion
  of an existing key updates the value in place, a new key is appended.
* Python `float` values are modelled as exact rationals (`Rat`); the decimal
  literals handled by `parseDecimal` cover every form the code under
  consideration receives.  IEEE rounding is outside the scope of the claims
  settled here, all of which are about control flow and formula structure.
* numpy `uint16` arrays are lists of naturals; stores reduce mod 2^16.
* numpy array identity ("returned by reference" vs. "independent copy") is
  modelled with a tiny heap: a `Heap` is a list of arrays and a reference is
  an index into it; `np.copy` appends a fresh array.
* Raised exceptions become `Except`/`Option` error values; functions that
  mutate `self` return the updated state.
-/

/-- Python-style exception values raised by the embedded code.  Each
constructor corresponds to one exception class (or builtin) actually raised
by the source; payloads model the exception arguments. -/
inductive PyErr where
  | invalidPeptide (msg : String)
  | invalidAminoAcid (msg : String)
  | unknownModification (name : String)
  | invalidModificationFormatting (mods : String)
  | keyError (key : String)
  | valueError (msg : String)
  | indexError
  | zeroDivisionError
  | nameError (name : String)
  | invalidXGBoostModel
  | unknownFragmentationMethod
deriving Repr, DecidableEq

/-- Decidable equality for `Except`, so concrete runs of the embedded code
can be checked with `decide`. -/
instance instDecEqExcept {ε α : Type} [DecidableEq ε] [DecidableEq α] :
    DecidableEq (Except ε α) := fun x y =>
  match x, y with
  | .ok a, .ok b =>
    if h : a = b then isTrue (by rw [h])
    else isFalse (fun hc => h (Except.ok.inj hc))
  | .error a, .error b =>
    if h : a = b then isTrue (by rw [h])
    else isFalse (fun hc => h (Except.error.inj hc))
  | .ok _, .error _ => isFalse (fun hc => Except.noConfusion hc)
  | .error _, .ok _ => isFalse (fun hc => Except.noConfusion hc)

/-- Insertion-ordered Python dict with string keys. -/
abbrev PyDict (V : Type) : Type := List (String × V)

/-- Lookup `d[k]`: the value of the first (unique, for dicts built by
`dictInsert`) binding of `k`. -/
def dictGet? {V : Type} (k : String) : PyDict V → Option V
  | [] => none
  | (k2, v) :: rest => if k = k2 then some v else dictGet? k rest

/-- Assignment `d[k] = v` with Python dict semantics: an existing key keeps
its position and gets the new value, a fresh key is appended. -/
def dictInsert {V : Type} (d : PyDict V) (k : String) (v : V) : PyDict V :=
  match d with
  | [] => [(k, v)]
  | (k2, v2) :: rest => if k2 = k then (k, v) :: rest else (k2, v2) :: dictInsert rest k v

/-- A dict comprehension over a (possibly duplicated) pair list: the later
binding of a duplicated key wins. -/
def buildDict {V : Type} (l : List (String × V)) : PyDict V :=
  l.foldl (fun d p => dictInsert d p.1 p.2) []

/-- Python `s.split(sep)` for a one-character separator, on char lists:
keeps empty fields, and the empty string yields `[""]`. -/
def splitChar (sep : Char) : List Char → List (List Char)
  | [] => [[]]
  | c :: rest =>
    match splitChar sep rest with
    | [] => [[]]
    | g :: gs => if c = sep then [] :: g :: gs else (c :: g) :: gs

/-- Python `s.split(sep)` for a one-character separator. -/
def pySplit (s : String) (sep : Char) : List String :=
  (splitChar sep s.data).map String.mk

/-- Value of a nonempty all-digit string, accumulator style. -/
def digitsValGo : List Char → Nat → Option Nat
  | [], acc => some acc
  | c :: rest, acc => if c.isDigit then digitsValGo rest (acc * 10 + (c.toNat - 48)) else none

/-- Value of a nonempty all-digit string; `none` on the empty string or any
non-digit character. -/
def digitsVal : List Char → Option Nat
  | [] => none
  | l => digitsValGo l 0

/-- Python `float(s)` on the plain decimal literals this code receives
(optional sign, integer part, optional fractional part), as an exact
rational; `none` models a raised `ValueError`. -/
def parseDecimal (s : String) : Option Rat :=
  match s.data with
  | '-' :: rest => (parseUnsignedDecimal rest).map (fun q => -q)
  | l => parseUnsignedDecimal l
where
  parseUnsignedDecimal (l : List Char) : Option Rat :=
    match splitChar '.' l with
    | [w] => (digitsVal w).map (fun n => (n : Rat))
    | [w, f] =>
      match digitsVal w, digitsVal f with
      | some a, some b => some ((a : Rat) + (b : Rat) / (10 ^ f.length))
      | some a, none => if f = [] then some ((a : Rat)) else none
      | none, some b => if w = [] then some ((b : Rat) / (10 ^ f.length)) else none
      | none, none => none
    | _ => none

/-- Python `int(s)` on an optionally signed digit string; `none` models a
raised `ValueError`. -/
def parseInt? (s : String) : Option Int :=
  match s.data with
  | '-' :: rest => (digitsVal rest).map (fun n => -(n : Int))
  | l => (digitsVal l).map (fun n => (n : Int))

/-- Python slice `[1::2]`: the elements at odd indices. -/
def oddIdx {α : Type} : List α → List α
  | [] => []
  | [_] => []
  | _ :: b :: rest => b :: oddIdx rest

/-- Consecutive pairs `(l[i], l[i+1])` for `i = 0, 2, 4, ...`, as iterated
by the modification-application loops. -/
def toPairs {α : Type} : List α → List (α × α)
  | a :: b :: rest => (a, b) :: toPairs rest
  | _ => []

/-! ## `ms2pip/_utils/peptides.py` -/

/-- `AMINO_ACIDS`: the 19-letter canonical alphabet (`L` folded into `I`). -/
def AMINO_ACIDS : List String :=
  ["A", "C", "D", "E", "F", "G", "H", "I", "K", "M", "N", "P", "Q", "R", "S", "T", "V", "W", "Y"]

/-- `AMINO_ACID_IDS = {a: i for i, a in enumerate(AMINO_ACIDS)}`. -/
def AMINO_ACID_IDS : PyDict Nat :=
  AMINO_ACIDS.enum.map (fun p => (p.2, p.1))

/-- `PROTON_MASS` constant. -/
def PROTON_MASS : Rat := 1.007825032070059

/-- One registered modification: the value dict stored by
`Modifications.add_from_ms2pip_modstrings`. -/
structure ModEntry where
  mass_shift : Rat
  amino_acid : String
  amino_acid_id : Int
  mod_id : Nat
deriving Repr, DecidableEq

/-- State of the `Modifications` registry: per-category name→ModEntry dicts, the
two lazily rebuilt caches, and the running modification-id counter. -/
structure Modifications where
  modifications : PyDict (PyDict ModEntry)
  _mass_shifts : Option (PyDict Rat)
  _ptm_ids : Option (PyDict Nat)
  _next_mod_id : Nat
deriving Repr, DecidableEq

/-- `Modifications.__init__`: empty `ptm` and `sptm` categories, `None`
caches, counter at 38. -/
def Modifications.empty : Modifications :=
  ⟨[("ptm", []), ("sptm", [])], none, none, 38⟩

/-- The guard `if mod_type not in self.modifications:
self.modifications[mod_type] = {}`. -/
def ensureCategory (m : Modifications) (mod_type : String) : Modifications :=
  match dictGet? mod_type m.modifications with
  | some _ => m
  | none => { m with modifications := m.modifications ++ [(mod_type, [])] }

/-- Target-residue resolution in `add_from_ms2pip_modstrings`: `N-term` is
-1, `C-term` is -2, `L` takes `I`'s id, other table letters their id, and
anything else raises `InvalidAminoAcidError` naming the symbol. -/
def resolveAminoAcidId (amino_acid : String) : Except PyErr Int :=
  if amino_acid = "N-term" then .ok (-1)
  else if amino_acid = "C-term" then .ok (-2)
  else if amino_acid = "L" then .ok (((dictGet? "I" AMINO_ACID_IDS).getD 0 : Nat) : Int)
  else
    match dictGet? amino_acid AMINO_ACID_IDS with
    | some i => .ok ((i : Nat) : Int)
    | none => .error (.invalidAminoAcid amino_acid)

/-- One iteration of the `for mod in modstrings` loop of
`add_from_ms2pip_modstrings`: split on commas into exactly four fields,
resolve the target residue, parse the mass shift, store the ModEntry under the
category with the current counter value, and bump the counter. -/
def processOne (m : Modifications) (mod_type : String) (mod : String) : Except PyErr Modifications :=
  match pySplit mod ',' with
  | [mod_name, mass_shift, _opt, amino_acid] =>
    match resolveAminoAcidId amino_acid with
    | .error e => .error e
    | .ok amino_acid_id =>
      match parseDecimal mass_shift with
      | none => .error (.valueError mass_shift)
      | some shift =>
        match dictGet? mod_type m.modifications with
        | none => .error (.keyError mod_type)
        | some cat =>
          .ok { m with
                modifications :=
                  dictInsert m.modifications mod_type
                    (dictInsert cat mod_name ⟨shift, amino_acid, amino_acid_id, m._next_mod_id⟩),
                _next_mod_id := m._next_mod_id + 1 }
  | _ => .error (.valueError mod)

/-- The registration loop; on an exception the partially updated state is
kept, as in Python. -/
def addLoop (mod_type : String) : Modifications → List String → Modifications × Option PyErr
  | m, [] => (m, none)
  | m, mod :: rest =>
    match processOne m mod_type mod with
    | .error e => (m, some e)
    | .ok m2 => addLoop mod_type m2 rest

/-- `Modifications.add_from_ms2pip_modstrings`: ensure the category dict
exists, run the registration loop, and — only when no exception was raised —
execute the final `self._mass_shifts = None`.  Note that `self._ptm_ids` is
never touched. -/
def Modifications.add_from_ms2pip_modstrings
    (m : Modifications) (modstrings : List String) (mod_type : String) :
    Modifications × Option PyErr :=
  match addLoop mod_type (ensureCategory m mod_type) modstrings with
  | (m2, none) => ({ m2 with _mass_shifts := none }, none)
  | (m2, some e) => (m2, some e)

/-- `Modifications._all_modifications`: chain of the per-category dicts in
category insertion order. -/
def Modifications.allModifications (m : Modifications) : List (String × ModEntry) :=
  (m.modifications.map Prod.snd).flatten

/-- Python truthiness of `self._mass_shifts` / `self._ptm_ids`: falsy when
`None` or the empty dict. -/
def cacheFalsy {V : Type} : Option (PyDict V) → Bool
  | none => true
  | some d => d.isEmpty

/-- `Modifications.mass_shifts` property: rebuild the name→mass-shift cache
from all categories when it is falsy, else serve the cache; returns the
updated state together with the mapping. -/
def Modifications.mass_shifts (m : Modifications) : Modifications × PyDict Rat :=
  if cacheFalsy m._mass_shifts then
    let d := buildDict ((Modifications.allModifications m).map (fun p => (p.1, p.2.mass_shift)))
    ({ m with _mass_shifts := some d }, d)
  else
    (m, m._mass_shifts.getD [])

/-- `Modifications.ptm_ids` property: same lazy pattern for the
name→mod-id mapping. -/
def Modifications.ptm_ids (m : Modifications) : Modifications × PyDict Nat :=
  if cacheFalsy m._ptm_ids then
    let d := buildDict ((Modifications.allModifications m).map (fun p => (p.1, p.2.mod_id)))
    ({ m with _ptm_ids := some d }, d)
  else
    (m, m._ptm_ids.getD [])

/-- The sum `sum([self.mass_shifts[mod] for mod in ...])`: left-to-right
lookups, the first missing name raising `KeyError` (returned as the offending
name). -/
def sumLookups (d : PyDict Rat) (names : List String) : Except String Rat :=
  match names with
  | [] => .ok 0
  | n :: rest =>
    match dictGet? n d with
    | none => .error n
    | some v =>
      match sumLookups d rest with
      | .error e => .error e
      | .ok s => .ok (v + s)

/-- `Modifications.calc_precursor_mz`.  `fast_mass` abstracts the external
`pyteomics.mass.fast_mass` collaborator.  The modification names are the
odd-position tokens of the `|`-separated string; a missing name propagates
the `KeyError` of the dict lookup (the code does not catch it). -/
def Modifications.calc_precursor_mz
    (m : Modifications) (fast_mass : String → Rat)
    (peptide modifications : String) (charge : Int) :
    Modifications × Except PyErr (Rat × Rat) :=
  let unmodified_mass := fast_mass peptide
  let ms := Modifications.mass_shifts m
  match sumLookups ms.2 (oddIdx (pySplit modifications '|')) with
  | .error name => (ms.1, .error (.keyError name))
  | .ok mods_masses =>
    let prec_mass := unmodified_mass + mods_masses
    if charge = 0 then (ms.1, .error .zeroDivisionError)
    else (ms.1, .ok (prec_mass, (prec_mass + (charge : Rat) * PROTON_MASS) / (charge : Rat)))

/-- Per-character effect of `peptide.upper().replace("L", "I")` (ASCII
inputs): upper-case, then fold `L` to `I`. -/
def foldChar (c : Char) : Char :=
  let u := c.toUpper
  if u = 'L' then 'I' else u

/-- `peptide.upper().replace("L", "I")`. -/
def pyUpperFoldLI (s : String) : String := String.mk (s.data.map foldChar)

/-- `AMINO_ACID_IDS[x]` for one character of the peptide string. -/
def aaId? (c : Char) : Option Nat := dictGet? (String.singleton c) AMINO_ACID_IDS

/-- The list comprehension `[AMINO_ACID_IDS[x] for x in peptide]`; `none`
models the `KeyError` raised at the first unknown character. -/
def encodeChars : List Char → Option (List Nat)
  | [] => some []
  | c :: rest =>
    match aaId? c, encodeChars rest with
    | some i, some l => some (i :: l)
    | _, _ => none

/-- `encode_peptide`: fold the sequence, enforce the 4..100 length window,
and produce the sentinel-padded id array (`uint16`; values here never exceed
18). -/
def encode_peptide (peptide : String) : Except PyErr (List Nat) :=
  let p := pyUpperFoldLI peptide
  if p.length > 100 then
    .error (.invalidPeptide "Peptide sequence cannot be longer than 100 amino acids.")
  else if p.length < 4 then
    .error (.invalidPeptide "Peptide sequence cannot be shorter than 4 amino acids.")
  else
    match encodeChars p.data with
    | some ids => .ok ([0] ++ ids ++ [0])
    | none => .error (.invalidAminoAcid ("Unsupported amino acid found in peptide `" ++ p ++ "`"))

/-- The sentinel-padded encoding the spec describes: a zero, the table ids
of the folded residues, and a zero. -/
def specEncoding (s : String) : List Nat :=
  [0] ++ (pyUpperFoldLI s).data.map (fun c => (aaId? c).getD 0) ++ [0]

/-! ## numpy arrays and the modification applicators -/

/-- A numpy `uint16` array value. -/
abbrev NpArray : Type := List Nat

/-- The array heap: references are indices; `np.copy` appends. -/
abbrev Heap : Type := List NpArray

/-- Dereference. -/
def heapGet (h : Heap) (r : Nat) : NpArray := h.getD r []

/-- In-place store of a whole array value at a reference. -/
def heapSet (h : Heap) (r : Nat) (a : NpArray) : Heap := h.set r a

/-- numpy element assignment `a[loc] = v` on a `uint16` array: negative
indices wrap once, out-of-range raises `IndexError` (`none`), stores reduce
mod 2^16. -/
def npSet (a : NpArray) (loc : Int) (v : Nat) : Option NpArray :=
  let i := if loc < 0 then loc + (a.length : Int) else loc
  if 0 ≤ i ∧ i < (a.length : Int) then some (a.set i.toNat (v % 65536)) else none

/-- The shared `(position, name)` write loop of `apply_modifications` and
`apply_mods`: parse the position, look the name up (raising
`UnknownModificationError` when absent), and write the id into the array at
reference `r`. -/
def applyLoop (ptm_ids : PyDict Nat) (r : Nat) :
    Heap → List (String × String) → Heap × Except PyErr Nat
  | h, [] => (h, .ok r)
  | h, (locStr, name) :: rest =>
    match parseInt? locStr with
    | none => (h, .error (.valueError locStr))
    | some location =>
      match dictGet? name ptm_ids with
      | some v =>
        match npSet (heapGet h r) location v with
        | some arr => applyLoop ptm_ids r (heapSet h r arr) rest
        | none => (h, .error .indexError)
      | none => (h, .error (.unknownModification name))

/-- `apply_modifications` (peptides.py): empty or `"-"` modification strings
return the input reference untouched; otherwise an `np.copy` is taken, an odd
token count raises `InvalidModificationFormattingError`, and the pair loop
writes into the copy only. -/
def apply_modifications (h : Heap) (r : Nat) (modifications : String) (ptm_ids : PyDict Nat) :
    Heap × Except PyErr Nat :=
  if modifications ≠ "" ∧ modifications ≠ "-" then
    let h1 := h ++ [heapGet h r]
    let r1 := h.length
    let mods_split := pySplit modifications '|'
    if mods_split.length % 2 ≠ 0 then (h1, .error (.invalidModificationFormatting modifications))
    else applyLoop ptm_ids r1 h1 (toPairs mods_split)
  else (h, .ok r)

/-- `apply_mods` (predict_xgboost.py): always copies the peptide array
first, then (unless the string is `"-"`) runs the same pair loop on the
copy. -/
def apply_mods (h : Heap) (r : Nat) (mods : String) (PTMmap : PyDict Nat) :
    Heap × Except PyErr Nat :=
  let h1 := h ++ [heapGet h r]
  let r1 := h.length
  if mods ≠ "-" then
    let l := pySplit mods '|'
    if l.length % 2 ≠ 0 then (h1, .error (.invalidModificationFormatting mods))
    else applyLoop PTMmap r1 h1 (toPairs l)
  else (h1, .ok r1)

/-! ## `ms2pip/predict_xgboost.py`: reshaping and model artifacts -/

/-- `_split_list_by_lengths`: consume the input through an iterator,
islicing one group per requested length; an exhausted iterator silently
yields short or empty groups. -/
def splitListByLengths {α : Type} (list_in : List α) (lengths : List Nat) : List (List α) :=
  match lengths with
  | [] => []
  | n :: rest => list_in.take n :: splitListByLengths (list_in.drop n) rest

/-- The orientation step of `process_peptides_xgb`: C-terminal ion series
(`x`, `y`, `z`) are reversed per record, N-terminal ones (`a`, `b`, `c`) are
kept, anything else raises `ValueError("Unsupported ion_type: ...")`. -/
def orientIonPreds {α : Type} (ion_type : String) (preds : List (List α)) :
    Except PyErr (List (List α)) :=
  if ion_type ∈ (["x", "y", "z"] : List String) then .ok (preds.map List.reverse)
  else if ion_type ∈ (["a", "b", "c"] : List String) then .ok preds
  else .error (.valueError ("Unsupported ion_type: " ++ ion_type))

/-- Lines 44-50 of `process_peptides_xgb`: split the flat per-ion-type
prediction vector by the per-record ion counts, then orient. -/
def reshapeIonPredictions {α : Type} (ion_type : String) (preds : List α)
    (num_ions : List Nat) : Except PyErr (List (List α)) :=
  orientIonPreds ion_type (splitListByLengths preds num_ions)

/-- `num_ions = (peprec["peptide"].str.len() - 1).to_list()`. -/
def numIonsOf (peptide_lengths : List Nat) : List Nat :=
  peptide_lengths.map (fun n => n - 1)

/-- The `MODEL_hashes` table of `check_model_integrity`. -/
def MODEL_hashes : PyDict String :=
  [("model_20210316_Immuno_HCD_B.xgboost", "977466d378de2e89c6ae15b4de8f07800d17a7b7"),
   ("model_20210316_Immuno_HCD_Y.xgboost", "71948e1b9d6c69cb69b9baf84d361a9f80986fea"),
   ("model_20210416_HCD2021_B.xgboost", "c086c599f618b199bbb36e2411701fb2866b24c8"),
   ("model_20210416_HCD2021_Y.xgboost", "22a5a137e29e69fa6d4320ed7d701b61cbdc4fcf")]

/-- `filename.rsplit("/", 1)[1]`: the basename when a separator occurs,
`IndexError` otherwise. -/
def pyRsplitLast (s : String) (sep : Char) : Except PyErr String :=
  let parts := pySplit s sep
  if parts.length ≥ 2 then .ok (parts.getLastD "") else .error .indexError

/-- `check_model_integrity`: after extracting the basename, the read loop
executes `chunk = f.read(16 * 1024)` — but the opened file handle is bound
as `modelfile` and no `f` is in scope, so the first loop iteration raises
`NameError` regardless of the file contents; the digest is never computed
and the `MODEL_hashes` comparison is never reached. -/
def check_model_integrity (filename : String) (_contents : List Nat) : Except PyErr Bool :=
  match pyRsplitLast filename '/' with
  | .error e => .error e
  | .ok _model => .error (.nameError "f")

/-- `check_model_presence`: `False` when the cache dir or the file is
missing; otherwise the integrity check's outcome decides (its exceptions
propagate; a falsy return would raise
`UnknownFragmentationMethodError`). -/
def check_model_presence (model : String) (ms2pipDirExists fileExists : Bool)
    (contents : List Nat) (home : String) : Except PyErr Bool :=
  if !ms2pipDirExists then .ok false
  else if !fileExists then .ok false
  else
    match check_model_integrity (home ++ "/.ms2pip/" ++ model) contents with
    | .ok true => .ok true
    | .ok false => .error .unknownFragmentationMethod
    | .error e => .error e

/-! ## Helper lemmas -/

/-- `getD` on an append, inside the left list. -/
lemma getD_append_lt {α : Type} (l l2 : List α) (i : Nat) (d : α) (h : i < l.length) :
    (l ++ l2).getD i d = l.getD i d := by
  induction l generalizing i with
  | nil => simp at h
  | cons a as ih =>
    cases i with
    | zero => rfl
    | succ n => exact ih n (by simpa using h)

/-- `getD` at the index of a freshly appended element. -/
lemma getD_concat_self {α : Type} (l : List α) (x : α) (d : α) :
    (l ++ [x]).getD l.length d = x := by
  induction l with
  | nil => rfl
  | cons a as ih => simpa using ih

/-- `List.set` leaves other positions alone. -/
lemma getD_set_ne {α : Type} (l : List α) (n m : Nat) (v : α) (d : α) (h : n ≠ m) :
    (l.set n v).getD m d = l.getD m d := by
  simp [List.getD, List.getElem?_set_ne h]

/-- A successful dict lookup comes from a binding in the list. -/
lemma dictGet_mem {V : Type} {k : String} {v : V} {l : PyDict V}
    (h : dictGet? k l = some v) : (k, v) ∈ l := by
  induction l with
  | nil => simp [dictGet?] at h
  | cons p rest ih =>
    obtain ⟨k2, v2⟩ := p
    by_cases hk : k = k2
    · simp [dictGet?, hk] at h
      simp [hk, h]
    · simp [dictGet?, hk] at h
      exact List.mem_cons_of_mem _ (ih h)

/-- Lookup after a dict assignment. -/
lemma dictGet_dictInsert {V : Type} (d : PyDict V) (k k0 : String) (v : V) :
    dictGet? k (dictInsert d k0 v) = if k = k0 then some v else dictGet? k d := by
  induction d with
  | nil => simp [dictInsert, dictGet?]
  | cons p rest ih =>
    obtain ⟨k2, v2⟩ := p
    by_cases h : k2 = k0
    · subst h
      by_cases hk : k = k2 <;> simp [dictInsert, dictGet?, hk]
    · by_cases hk2 : k = k2
      · subst hk2
        have hk0 : k ≠ k0 := fun hc => h (hc ▸ rfl)
        simp [dictInsert, dictGet?, h, hk0]
      · simp [dictInsert, dictGet?, h, hk2, ih]

/-- Dict lookup distributes over append (hit in the left part). -/
lemma dictGet_append_left {V : Type} {k : String} {v : V} {l1 : PyDict V} (l2 : PyDict V)
    (h : dictGet? k l1 = some v) : dictGet? k (l1 ++ l2) = some v := by
  induction l1 with
  | nil => simp [dictGet?] at h
  | cons p rest ih =>
    obtain ⟨k2, v2⟩ := p
    by_cases hk : k = k2
    · simp [dictGet?, hk] at h ⊢
      exact h
    · simp [dictGet?, hk] at h ⊢
      exact ih h

/-- Dict lookup distributes over append (miss in the left part). -/
lemma dictGet_append_right {V : Type} {k : String} {l1 : PyDict V} (l2 : PyDict V)
    (h : dictGet? k l1 = none) : dictGet? k (l1 ++ l2) = dictGet? k l2 := by
  induction l1 with
  | nil => rfl
  | cons p rest ih =>
    obtain ⟨k2, v2⟩ := p
    by_cases hk : k = k2 <;> simp [dictGet?, hk] at h ⊢ <;> exact ih h

/-- Folding dict assignments over a pair list: the result of a lookup is the
last binding of the key, i.e. the first binding in the reversed list. -/
lemma foldl_dictInsert_get {V : Type} (l : List (String × V)) (d : PyDict V) (k : String) :
    dictGet? k (l.foldl (fun d p => dictInsert d p.1 p.2) d) =
      match dictGet? k l.reverse with
      | some v => some v
      | none => dictGet? k d := by
  induction l generalizing d with
  | nil => rfl
  | cons p rest ih =>
    rw [List.foldl_cons, ih, List.reverse_cons]
    rcases hr : dictGet? k rest.reverse with _ | v
    · rw [dictGet_append_right [p] hr]
      by_cases hk : k = p.1 <;> simp [dictGet?, dictGet_dictInsert, hk]
    · rw [dictGet_append_left [p] hr]

/-- `buildDict` lookup: the last binding of a key wins. -/
lemma buildDict_get {V : Type} (l : List (String × V)) (k : String) :
    dictGet? k (buildDict l) =
      match dictGet? k l.reverse with
      | some v => some v
      | none => none := by
  rw [buildDict, foldl_dictInsert_get]
  rcases dictGet? k l.reverse <;> rfl

/-- In a dict with distinct keys, any binding is the lookup result. -/
lemma dictGet_of_mem_nodup {V : Type} {l : PyDict V} {k : String} {v : V}
    (hn : (l.map Prod.fst).Nodup) (hm : (k, v) ∈ l) : dictGet? k l = some v := by
  induction l with
  | nil => simp at hm
  | cons p rest ih =>
    obtain ⟨k2, v2⟩ := p
    rcases List.mem_cons.1 hm with heq | hmem
    · injection heq with h1 h2
      subst h1; subst h2
      simp [dictGet?]
    · obtain ⟨hhead, htail⟩ :
        (∀ x : V, (k2, x) ∉ rest) ∧ (rest.map Prod.fst).Nodup := by simpa using hn
      have hk : k ≠ k2 := by
        intro hc
        subst hc
        exact hhead v hmem
      simp [dictGet?, hk]
      exact ih htail hmem

/-- A successful registration step bumps the counter by one and leaves both
caches untouched (`_mass_shifts` is only reset after the whole loop). -/
lemma processOne_ok {m : Modifications} {mt mod : String} {m2 : Modifications}
    (h : processOne m mt mod = .ok m2) :
    m2._next_mod_id = m._next_mod_id + 1 ∧ m2._ptm_ids = m._ptm_ids ∧
      m2._mass_shifts = m._mass_shifts := by
  unfold processOne at h
  split at h
  · split at h
    · simp at h
    · split at h
      · simp at h
      · split at h
        · simp at h
        · injection h with h
          subst h
          exact ⟨rfl, rfl, rfl⟩
  · simp at h

/-- Unfolding of one registration step once the modstring is known to split
into exactly four fields. -/
lemma processOne_eq (m : Modifications) (mt : String)
    {mod mod_name mass_shift opt2 amino_acid : String}
    (hs : pySplit mod ',' = [mod_name, mass_shift, opt2, amino_acid]) :
    processOne m mt mod =
      match resolveAminoAcidId amino_acid with
      | .error e => .error e
      | .ok amino_acid_id =>
        match parseDecimal mass_shift with
        | none => .error (.valueError mass_shift)
        | some shift =>
          match dictGet? mt m.modifications with
          | none => .error (.keyError mt)
          | some cat =>
            .ok { m with
                  modifications :=
                    dictInsert m.modifications mt
                      (dictInsert cat mod_name
                        ⟨shift, amino_acid, amino_acid_id, m._next_mod_id⟩),
                  _next_mod_id := m._next_mod_id + 1 } := by
  unfold processOne
  rw [hs]

/-- A successful registration step stores, under the requested category and
name, an entry whose `mod_id` is the pre-call counter value. -/
lemma processOne_ok_entry {m : Modifications} {mt mod : String} {m2 : Modifications}
    {mod_name mass_shift opt2 amino_acid : String}
    (hs : pySplit mod ',' = [mod_name, mass_shift, opt2, amino_acid])
    (h : processOne m mt mod = .ok m2) :
    ∃ cat2 : PyDict ModEntry, dictGet? mt m2.modifications = some cat2 ∧
      ∃ entry : ModEntry, dictGet? mod_name cat2 = some entry ∧
        entry.mod_id = m._next_mod_id := by
  rw [processOne_eq m mt hs] at h
  rcases hres : resolveAminoAcidId amino_acid with e | aid
  · rw [hres] at h
    simp at h
  · rw [hres] at h
    rcases hdec : parseDecimal mass_shift with _ | shift
    · rw [hdec] at h
      simp at h
    · rw [hdec] at h
      rcases hcat : dictGet? mt m.modifications with _ | cat
      · rw [hcat] at h
        simp at h
      · rw [hcat] at h
        injection h with h
        subst h
        refine ⟨dictInsert cat mod_name ⟨shift, amino_acid, aid, m._next_mod_id⟩, ?_,
          ⟨shift, amino_acid, aid, m._next_mod_id⟩, ?_, rfl⟩
        · show dictGet? mt (dictInsert m.modifications mt _) = _
          rw [dictGet_dictInsert, if_pos rfl]
        · rw [dictGet_dictInsert, if_pos rfl]

/-- The registration loop, when it raises no exception, bumps the counter
once per entry and leaves `_ptm_ids` untouched. -/
lemma addLoop_none {mt : String} :
    ∀ {ms : List String} {m m2 : Modifications}, addLoop mt m ms = (m2, none) →
      m2._next_mod_id = m._next_mod_id + ms.length ∧ m2._ptm_ids = m._ptm_ids := by
  intro ms
  induction ms with
  | nil =>
    intro m m2 h
    injection h with h1 _
    subst h1
    exact ⟨rfl, rfl⟩
  | cons mod rest ih =>
    intro m m2 h
    unfold addLoop at h
    split at h
    · injection h with _ h2
      simp at h2
    · rename_i mnext hstep
      obtain ⟨hn, hp⟩ := ih h
      obtain ⟨hn2, hp2, _⟩ := processOne_ok hstep
      constructor
      · rw [hn, hn2, List.length_cons]
        omega
      · rw [hp, hp2]

/-- `ensureCategory` only touches the `modifications` dict. -/
lemma ensureCategory_fields (m : Modifications) (mt : String) :
    (ensureCategory m mt)._next_mod_id = m._next_mod_id ∧
      (ensureCategory m mt)._ptm_ids = m._ptm_ids ∧
      (ensureCategory m mt)._mass_shifts = m._mass_shifts := by
  unfold ensureCategory
  split
  · exact ⟨rfl, rfl, rfl⟩
  · exact ⟨rfl, rfl, rfl⟩

/-- A registration call that raises no exception clears `_mass_shifts`,
leaves `_ptm_ids` untouched, and advances the counter once per entry. -/
lemma add_from_ms2pip_modstrings_none {m : Modifications} {ms : List String} {mt : String}
    (h : (Modifications.add_from_ms2pip_modstrings m ms mt).2 = none) :
    (Modifications.add_from_ms2pip_modstrings m ms mt).1._mass_shifts = none ∧
      (Modifications.add_from_ms2pip_modstrings m ms mt).1._ptm_ids = m._ptm_ids ∧
      (Modifications.add_from_ms2pip_modstrings m ms mt).1._next_mod_id =
        m._next_mod_id + ms.length := by
  unfold Modifications.add_from_ms2pip_modstrings at h ⊢
  rcases hl : addLoop mt (ensureCategory m mt) ms with ⟨m2, oe⟩
  cases oe with
  | none =>
    obtain ⟨hn, hp⟩ := addLoop_none hl
    obtain ⟨he1, he2, _⟩ := ensureCategory_fields m mt
    refine ⟨rfl, ?_, ?_⟩
    · show m2._ptm_ids = m._ptm_ids
      rw [hp, he2]
    · show m2._next_mod_id = m._next_mod_id + ms.length
      rw [hn, he1]
  | some e =>
    rw [hl] at h
    exact Option.noConfusion h

/-- Folding preserves the character count (Python `len`). -/
lemma pyUpperFoldLI_length (s : String) : (pyUpperFoldLI s).length = s.length := by
  show (s.data.map foldChar).length = s.data.length
  simp

/-- When every folded character is in the table, the encoding comprehension
is the plain map of table ids. -/
lemma encodeChars_eq_map {l : List Char} (h : ∀ c ∈ l, (aaId? c).isSome) :
    encodeChars l = some (l.map (fun c => (aaId? c).getD 0)) := by
  induction l with
  | nil => rfl
  | cons c rest ih =>
    have hc := h c (List.mem_cons_self c rest)
    rcases hhc : aaId? c with _ | i
    · rw [hhc] at hc
      simp at hc
    · have hrest := ih (fun x hx => h x (List.mem_cons_of_mem _ hx))
      simp [encodeChars, hhc, hrest]

/-- Any character outside the table makes the comprehension raise. -/
lemma encodeChars_none {l : List Char} {c : Char} (hc : c ∈ l) (hbad : aaId? c = none) :
    encodeChars l = none := by
  induction l with
  | nil => simp at hc
  | cons a rest ih =>
    rcases List.mem_cons.1 hc with heq | hmem
    · subst heq
      simp [encodeChars, hbad]
    · rcases ha : aaId? a with _ | i <;> simp [encodeChars, ha, ih hmem]

/-- Every id in the amino-acid table is below 19 (so far below 2^16). -/
lemma aaId_lt {c : Char} {n : Nat} (h : aaId? c = some n) : n < 19 := by
  have hmem := dictGet_mem h
  have hall : ∀ p ∈ AMINO_ACID_IDS, p.2 < 19 := by decide
  exact hall _ hmem

/-- Successful encoding of a length-valid all-canonical peptide. -/
lemma encode_peptide_ok {s : String} (h1 : 4 ≤ s.length) (h2 : s.length ≤ 100)
    (h3 : ∀ c ∈ (pyUpperFoldLI s).data, (aaId? c).isSome) :
    encode_peptide s = .ok (specEncoding s) := by
  have hA : ¬ ((pyUpperFoldLI s).length > 100) := by
    rw [pyUpperFoldLI_length]
    omega
  have hB : ¬ ((pyUpperFoldLI s).length < 4) := by
    rw [pyUpperFoldLI_length]
    omega
  rw [encode_peptide, if_neg hA, if_neg hB, encodeChars_eq_map h3]
  rfl

/-- The write loop never touches a heap cell other than its target
reference. -/
lemma applyLoop_getD_ne (ids : PyDict Nat) (r : Nat) :
    ∀ (ps : List (String × String)) (h : Heap) (i : Nat), i ≠ r →
      ((applyLoop ids r h ps).1).getD i [] = h.getD i [] := by
  intro ps
  induction ps with
  | nil =>
    intro h i _
    rfl
  | cons p rest ih =>
    intro h i hi
    obtain ⟨locStr, name⟩ := p
    rcases hp : parseInt? locStr with _ | loc
    · simp [applyLoop, hp]
    · rcases hv : dictGet? name ids with _ | v
      · simp [applyLoop, hp, hv]
      · rcases ha : npSet (heapGet h r) loc v with _ | arr
        · simp [applyLoop, hp, hv, ha]
        · have hstep : (applyLoop ids r h ((locStr, name) :: rest)).1 =
              (applyLoop ids r (heapSet h r arr) rest).1 := by
            simp [applyLoop, hp, hv, ha]
          rw [hstep, ih (heapSet h r arr) i hi]
          exact getD_set_ne h r i arr [] (fun hc => hi hc.symm)

/-- The write loop returns (on success) exactly the reference it was given. -/
lemma applyLoop_ok_ref (ids : PyDict Nat) (r : Nat) :
    ∀ (ps : List (String × String)) (h : Heap) (r2 : Nat),
      (applyLoop ids r h ps).2 = .ok r2 → r2 = r := by
  intro ps
  induction ps with
  | nil =>
    intro h r2 hok
    injection hok with hok
    exact hok.symm
  | cons p rest ih =>
    intro h r2 hok
    obtain ⟨locStr, name⟩ := p
    rcases hp : parseInt? locStr with _ | loc
    · simp [applyLoop, hp] at hok
    · rcases hv : dictGet? name ids with _ | v
      · simp [applyLoop, hp, hv] at hok
      · rcases ha : npSet (heapGet h r) loc v with _ | arr
        · simp [applyLoop, hp, hv, ha] at hok
        · have hstep : (applyLoop ids r h ((locStr, name) :: rest)).2 =
              (applyLoop ids r (heapSet h r arr) rest).2 := by
            simp [applyLoop, hp, hv, ha]
          rw [hstep] at hok
          exact ih (heapSet h r arr) r2 hok

/-- `apply_modifications` with an empty or `"-"` modification string is the
identity on the heap and returns the caller's reference. -/
lemma apply_modifications_noop (h : Heap) (r : Nat) (ids : PyDict Nat) {mods : String}
    (hm : mods = "" ∨ mods = "-") : apply_modifications h r mods ids = (h, .ok r) := by
  rcases hm with rfl | rfl
  · simp [apply_modifications]
  · simp [apply_modifications]

/-- `apply_modifications` never changes an existing heap cell (in
particular the caller's array), whatever the outcome. -/
lemma apply_modifications_frame (h : Heap) (r : Nat) (mods : String) (ids : PyDict Nat)
    (i : Nat) (hi : i < h.length) :
    ((apply_modifications h r mods ids).1).getD i [] = h.getD i [] := by
  by_cases hc : mods ≠ "" ∧ mods ≠ "-"
  · rw [apply_modifications, if_pos hc]
    by_cases hodd : (pySplit mods '|').length % 2 ≠ 0
    · simp only [if_pos hodd]
      exact getD_append_lt h [heapGet h r] i [] hi
    · simp only [if_neg hodd]
      rw [applyLoop_getD_ne ids h.length (toPairs (pySplit mods '|')) (h ++ [heapGet h r]) i
        (Nat.ne_of_lt hi)]
      exact getD_append_lt h [heapGet h r] i [] hi
  · rw [apply_modifications, if_neg hc]

/-- When `apply_modifications` takes the copying path and succeeds, the
returned reference is the freshly allocated copy, not the caller's. -/
lemma apply_modifications_fresh_ref {h : Heap} {r : Nat} {mods : String} {ids : PyDict Nat}
    {r2 : Nat} (h1 : mods ≠ "") (h2 : mods ≠ "-")
    (hok : (apply_modifications h r mods ids).2 = .ok r2) : r2 = h.length := by
  rw [apply_modifications, if_pos (And.intro h1 h2)] at hok
  by_cases hodd : (pySplit mods '|').length % 2 ≠ 0
  · rw [if_pos hodd] at hok
    exact Except.noConfusion hok
  · rw [if_neg hodd] at hok
    exact applyLoop_ok_ref ids h.length (toPairs (pySplit mods '|')) (h ++ [heapGet h r]) r2 hok

/-- `_split_list_by_lengths` always yields one group per requested
length. -/
lemma splitListByLengths_length {α : Type} (l : List α) (lengths : List Nat) :
    (splitListByLengths l lengths).length = lengths.length := by
  induction lengths generalizing l with
  | nil => rfl
  | cons n rest ih => simp [splitListByLengths, ih]

/-- Each group of `_split_list_by_lengths` is the contiguous slice of the
input that starts after the preceding groups — silently truncated when the
input is too short. -/
lemma splitListByLengths_getD {α : Type} (lengths : List Nat) (l : List α) (i : Nat)
    (hi : i < lengths.length) :
    (splitListByLengths l lengths).getD i [] =
      (l.drop ((lengths.take i).sum)).take (lengths.getD i 0) := by
  induction lengths generalizing l i with
  | nil => simp at hi
  | cons n rest ih =>
    cases i with
    | zero => simp [splitListByLengths]
    | succ j =>
      have hj : j < rest.length := by simpa using hi
      show (splitListByLengths (l.drop n) rest).getD j [] = _
      rw [ih (l.drop n) j hj]
      simp [List.getD, List.drop_drop, Nat.add_comm]

/-- `num_ions` entries are the peptide lengths minus one. -/
lemma numIonsOf_getD (pl : List Nat) (i : Nat) (hi : i < pl.length) :
    (numIonsOf pl).getD i 0 = pl.getD i 0 - 1 := by
  simp [numIonsOf, List.getD, List.getElem?_map, List.getElem?_eq_getElem hi]

/-- The lengths consumed before group `i` plus group `i`'s requested length
never exceed the total requested length. -/
lemma sum_take_getD_le (lengths : List Nat) (i : Nat) (hi : i < lengths.length) :
    (lengths.take i).sum + lengths.getD i 0 ≤ lengths.sum := by
  have h3 : lengths.sum = (lengths.take i).sum + (lengths.drop i).sum := by
    rw [← List.sum_append, List.take_append_drop]
  have h2 : lengths.drop i = lengths[i] :: lengths.drop (i + 1) :=
    List.drop_eq_getElem_cons hi
  have h4 : lengths.getD i 0 = lengths[i] := by
    simp [List.getD, List.getElem?_eq_getElem hi]
  rw [h3, h2, h4, List.sum_cons]
  omega

/-- The basename splitter never returns `ok`, so the digest comparison of
`check_model_integrity` is unreachable: the undefined variable `f` is hit
first. -/
lemma check_model_integrity_never_ok (fn : String) (c : List Nat) (b : Bool) :
    check_model_integrity fn c ≠ .ok b := by
  unfold check_model_integrity
  rcases pyRsplitLast fn '/' with e | mdl <;> simp

/-! ## Claim theorems -/

/-- Claim C1: for every batch, after one inference pass per ion type, the
flat per-ion-type prediction vector is split contiguously, in record order,
into one group per record of size `peptide_length - 1`; groups of C-terminal
ion types (`x`, `y`, `z`) are reversed so index 0 corresponds to the first
backbone cleavage site from the N-terminus, groups of N-terminal ion types
(`a`, `b`, `c`) are left in raw order, and any ion type outside
`{a, b, c, x, y, z}` is rejected with the unsupported-ion-type error
(realised in the code as `ValueError("Unsupported ion_type: ...")`). -/
theorem claim1_reshape_split_orientation {α : Type} (ion_type : String) (preds : List α)
    (peptide_lengths : List Nat) (i : Nat) (hi : i < peptide_lengths.length) :
    (ion_type ∈ (["x", "y", "z"] : List String) →
      reshapeIonPredictions ion_type preds (numIonsOf peptide_lengths) =
        .ok ((splitListByLengths preds (numIonsOf peptide_lengths)).map List.reverse)) ∧
    (ion_type ∈ (["a", "b", "c"] : List String) →
      reshapeIonPredictions ion_type preds (numIonsOf peptide_lengths) =
        .ok (splitListByLengths preds (numIonsOf peptide_lengths))) ∧
    (ion_type ∉ (["x", "y", "z"] : List String) →
      ion_type ∉ (["a", "b", "c"] : List String) →
      reshapeIonPredictions ion_type preds (numIonsOf peptide_lengths) =
        .error (.valueError ("Unsupported ion_type: " ++ ion_type))) ∧
    (splitListByLengths preds (numIonsOf peptide_lengths)).length = peptide_lengths.length ∧
    (splitListByLengths preds (numIonsOf peptide_lengths)).getD i [] =
      (preds.drop (((numIonsOf peptide_lengths).take i).sum)).take
        (peptide_lengths.getD i 0 - 1) ∧
    (preds.length = (numIonsOf peptide_lengths).sum →
      ((splitListByLengths preds (numIonsOf peptide_lengths)).getD i []).length =
        peptide_lengths.getD i 0 - 1) := by
  refine ⟨?_, ?_, ?_, ?_, ?_, ?_⟩
  · intro h
    unfold reshapeIonPredictions orientIonPreds
    rw [if_pos h]
  · intro h
    have hn : ion_type ∉ (["x", "y", "z"] : List String) := by
      simp only [List.mem_cons, List.not_mem_nil, or_false] at h
      rcases h with rfl | rfl | rfl <;> decide
    unfold reshapeIonPredictions orientIonPreds
    rw [if_neg hn, if_pos h]
  · intro h1 h2
    unfold reshapeIonPredictions orientIonPreds
    rw [if_neg h1, if_neg h2]
  · rw [splitListByLengths_length]
    simp [numIonsOf]
  · have hi2 : i < (numIonsOf peptide_lengths).length := by simpa [numIonsOf] using hi
    rw [splitListByLengths_getD (numIonsOf peptide_lengths) preds i hi2, numIonsOf_getD _ _ hi]
  · intro hlen
    have hi2 : i < (numIonsOf peptide_lengths).length := by simpa [numIonsOf] using hi
    have hle := sum_take_getD_le (numIonsOf peptide_lengths) i hi2
    rw [splitListByLengths_getD (numIonsOf peptide_lengths) preds i hi2,
      numIonsOf_getD _ _ hi]
    rw [numIonsOf_getD _ _ hi] at hle
    simp only [List.length_take, List.length_drop]
    omega

/-- Witness for C1, on the spec's own example: peptide lengths `[5, 7]`,
flat vector of ten predictions; `y` groups come out reversed, `b` groups in
raw order. -/
theorem claim1_witness :
    reshapeIonPredictions "y" [1, 2, 3, 4, 5, 6, 7, 8, 9, 10] (numIonsOf [5, 7]) =
      .ok [[4, 3, 2, 1], [10, 9, 8, 7, 6, 5]] ∧
    reshapeIonPredictions "b" [1, 2, 3, 4, 5, 6, 7, 8, 9, 10] (numIonsOf [5, 7]) =
      .ok [[1, 2, 3, 4], [5, 6, 7, 8, 9, 10]] := by
  have hy := (claim1_reshape_split_orientation "y" [1, 2, 3, 4, 5, 6, 7, 8, 9, 10]
    [5, 7] 0 (by decide)).1 (by decide)
  have hb := (claim1_reshape_split_orientation "b" [1, 2, 3, 4, 5, 6, 7, 8, 9, 10]
    [5, 7] 0 (by decide)).2.1 (by decide)
  constructor
  · rw [hy]
    decide
  · rw [hb]
    decide

/-- Claim C10 (implicit): the reshaping helper performs no length check —
it always returns one group per requested length, each group being the
contiguous slice starting after the preceding groups, and when the input is
too short the later groups are silently shorter or empty (group length
`min requested remaining`) instead of an error. -/
theorem claim10_split_no_length_check {α : Type} (l : List α) (lengths : List Nat) (i : Nat)
    (hi : i < lengths.length) :
    (splitListByLengths l lengths).length = lengths.length ∧
    (splitListByLengths l lengths).getD i [] =
      (l.drop ((lengths.take i).sum)).take (lengths.getD i 0) ∧
    ((splitListByLengths l lengths).getD i []).length =
      min (lengths.getD i 0) (l.length - (lengths.take i).sum) := by
  refine ⟨splitListByLengths_length l lengths, splitListByLengths_getD lengths l i hi, ?_⟩
  rw [splitListByLengths_getD lengths l i hi]
  simp

/-- Witness for C10: a three-element vector split into requested lengths
`[4, 6]` silently yields a truncated first group and an empty second
group. -/
theorem claim10_witness :
    (splitListByLengths [1, 2, 3] [4, 6]).getD 1 [] = ([] : List Nat) ∧
    (splitListByLengths [1, 2, 3] [4, 6]).length = 2 ∧
    ((splitListByLengths [1, 2, 3] [4, 6]).getD 0 []).length = 3 := by
  have h1 := claim10_split_no_length_check [1, 2, 3] [4, 6] 1 (by decide)
  exact ⟨h1.2.1.trans (by decide), h1.1, by decide⟩

/-- Claim C4 is a code bug: `check_model_integrity` reads its file through
an undefined variable `f` (the handle is bound as `modelfile`), so every
verification attempt raises `NameError` before any digest is computed —
digest mismatches never raise `InvalidXGBoostModelError`, missing hash-table
entries are never even looked up, and `check_model_presence` can never
return `True`. -/
theorem claim4_integrity_name_error :
    check_model_integrity "/root/.ms2pip/model_20210416_HCD2021_B.xgboost" [0, 1, 2] =
      .error (.nameError "f") ∧
    check_model_integrity "/root/.ms2pip/model_20210416_HCD2021_B.xgboost" [0, 1, 2] ≠
      .error .invalidXGBoostModel ∧
    (∀ (model : String) (d fe : Bool) (c : List Nat) (home : String),
      check_model_presence model d fe c home ≠ .ok true) := by
  refine ⟨by decide, by decide, ?_⟩
  intro model d fe c home
  cases d with
  | false => simp [check_model_presence]
  | true =>
    cases fe with
    | false => simp [check_model_presence]
    | true =>
      rcases hs : check_model_integrity (home ++ "/.ms2pip/" ++ model) c with e | b
      · simp [check_model_presence, hs]
      · exact absurd hs (check_model_integrity_never_ok _ _ _)

/-- Claim C3: for every peptide string of length 4 to 100 whose characters
(after upper-casing and folding `L` to `I`) are all among the 19 canonical
residues, `encode_peptide` returns the sentinel-padded array of length
`peptide_length + 2`: positions `1..len` are exactly the amino-acid table
ids of the folded residues, positions `0` and `len + 1` are `0`, every
entry fits in an unsigned 16-bit integer, and applying an empty
modification string afterwards returns the array unchanged (same heap, same
reference). -/
theorem claim3_encode_apply_empty (s : String) (ptm_ids : PyDict Nat)
    (h1 : 4 ≤ s.length) (h2 : s.length ≤ 100)
    (h3 : ∀ c ∈ (pyUpperFoldLI s).data, (aaId? c).isSome) :
    encode_peptide s = .ok (specEncoding s) ∧
    (specEncoding s).length = s.length + 2 ∧
    (specEncoding s).getD 0 0 = 0 ∧
    (specEncoding s).getD (s.length + 1) 0 = 0 ∧
    (∀ x ∈ specEncoding s, x < 65536) ∧
    apply_modifications [specEncoding s] 0 "" ptm_ids = ([specEncoding s], .ok 0) := by
  have hdlen : (pyUpperFoldLI s).data.length = s.length := pyUpperFoldLI_length s
  have hmaplen : ((pyUpperFoldLI s).data.map (fun c => (aaId? c).getD 0)).length = s.length := by
    rw [List.length_map, hdlen]
  refine ⟨encode_peptide_ok h1 h2 h3, ?_, rfl, ?_, ?_,
    apply_modifications_noop _ _ _ (Or.inl rfl)⟩
  · simp [specEncoding, hmaplen]
  · show ((pyUpperFoldLI s).data.map (fun c => (aaId? c).getD 0) ++ [0]).getD s.length 0 = 0
    rw [← hmaplen, getD_concat_self]
  · intro x hx
    simp only [specEncoding, List.mem_append, List.mem_singleton, List.mem_cons,
      List.not_mem_nil, or_false, List.mem_map] at hx
    rcases hx with (hx | ⟨c, _, rfl⟩) | hx
    · omega
    · rcases haa : aaId? c with _ | n
      · simp
      · have := aaId_lt haa
        simp [haa]
        omega
    · omega

/-- Witness for C3: `encode_peptide "ACDE"` gives the padded id array and
an empty modification string leaves it unchanged. -/
theorem claim3_witness :
    encode_peptide "ACDE" = .ok [0, 0, 1, 2, 3, 0] ∧
    apply_modifications [[0, 0, 1, 2, 3, 0]] 0 "" [] = ([[0, 0, 1, 2, 3, 0]], .ok 0) := by
  have h := claim3_encode_apply_empty "ACDE" [] (by decide) (by decide) (by decide)
  have hspec : specEncoding "ACDE" = [0, 0, 1, 2, 3, 0] := by decide
  refine ⟨h.1.trans (by rw [hspec]), ?_⟩
  have h6 := h.2.2.2.2.2
  rw [hspec] at h6
  exact h6

/-- Counterexample for C5 as stated: on `"ABUA"` (first unrecognized
symbol `B`) the raised `InvalidAminoAcidError` carries a message naming the
whole folded peptide, not the offending symbol. -/
theorem claim5_counterexample :
    encode_peptide "ABUA" =
      .error (.invalidAminoAcid "Unsupported amino acid found in peptide `ABUA`") ∧
    encode_peptide "ABUA" ≠ .error (.invalidAminoAcid "B") :=
  ⟨by decide, by decide⟩

/-- Claim C5 amended: `encode_peptide` fails with `InvalidPeptideError` for
every input whose folded length exceeds 100 or is below 4, and fails with
`InvalidAminoAcidError` for every length-valid input containing a character
that does not resolve after L-to-I folding — but the error message names
the folded peptide rather than the first unrecognized symbol. -/
theorem claim5_amended_encode_errors (s : String) :
    (s.length > 100 → encode_peptide s =
      .error (.invalidPeptide "Peptide sequence cannot be longer than 100 amino acids.")) ∧
    (s.length < 4 → encode_peptide s =
      .error (.invalidPeptide "Peptide sequence cannot be shorter than 4 amino acids.")) ∧
    (4 ≤ s.length → s.length ≤ 100 →
      (∃ c ∈ (pyUpperFoldLI s).data, aaId? c = none) →
      encode_peptide s =
        .error (.invalidAminoAcid
          ("Unsupported amino acid found in peptide `" ++ pyUpperFoldLI s ++ "`"))) := by
  refine ⟨?_, ?_, ?_⟩
  · intro h
    rw [encode_peptide, if_pos (by rw [pyUpperFoldLI_length]; omega)]
  · intro h
    rw [encode_peptide, if_neg (by rw [pyUpperFoldLI_length]; omega),
      if_pos (by rw [pyUpperFoldLI_length]; omega)]
  · rintro h1 h2 ⟨c, hc, hbad⟩
    rw [encode_peptide, if_neg (by rw [pyUpperFoldLI_length]; omega),
      if_neg (by rw [pyUpperFoldLI_length]; omega), encodeChars_none hc hbad]

/-- Witness for C5 (amended): length-3 and length-101 peptides hit the two
`InvalidPeptideError` branches; `"ABUA"` hits the `InvalidAminoAcidError`
branch with the peptide-naming message. -/
theorem claim5_witness :
    encode_peptide "ACD" =
      .error (.invalidPeptide "Peptide sequence cannot be shorter than 4 amino acids.") ∧
    encode_peptide (String.mk (List.replicate 101 'A')) =
      .error (.invalidPeptide "Peptide sequence cannot be longer than 100 amino acids.") ∧
    encode_peptide "ABUA" =
      .error (.invalidAminoAcid "Unsupported amino acid found in peptide `ABUA`") := by
  refine ⟨(claim5_amended_encode_errors "ACD").2.1 (by decide),
    (claim5_amended_encode_errors (String.mk (List.replicate 101 'A'))).1 (by decide), ?_⟩
  have h := (claim5_amended_encode_errors "ABUA").2.2 (by decide) (by decide)
    ⟨'B', by decide, by decide⟩
  rw [h]
  decide

/-- Claim C6: the modification applicator never mutates the caller's input
array — every pre-existing heap cell is unchanged by the call, whatever the
modification string and whether or not an exception is raised; an empty or
sentinel `"-"` string returns the very same reference with the heap
untouched; and on the copying path a successful call returns the freshly
allocated reference. -/
theorem claim6_apply_modifications_no_mutation (h : Heap) (r : Nat) (mods : String)
    (ids : PyDict Nat) (i : Nat) (hi : i < h.length) :
    ((apply_modifications h r mods ids).1).getD i [] = h.getD i [] ∧
    ((mods = "" ∨ mods = "-") → apply_modifications h r mods ids = (h, .ok r)) ∧
    (∀ r2 : Nat, mods ≠ "" → mods ≠ "-" →
      (apply_modifications h r mods ids).2 = .ok r2 → r2 = h.length) :=
  ⟨apply_modifications_frame h r mods ids i hi,
   fun hm => apply_modifications_noop h r ids hm,
   fun _ h1 h2 hok => apply_modifications_fresh_ref h1 h2 hok⟩

/-- Witness for C6: a two-site modification leaves the caller's array
untouched (writes go to the fresh copy), and `"-"` returns the caller's
reference with nothing allocated. -/
theorem claim6_witness :
    ((apply_modifications [[0, 5, 6, 0]] 0 "0|Ac|2|Ox" [("Ox", 39), ("Ac", 38)]).1).getD 0 [] =
      [0, 5, 6, 0] ∧
    apply_modifications [[0, 5, 6, 0]] 0 "-" [("Ox", 39), ("Ac", 38)] =
      ([[0, 5, 6, 0]], .ok 0) := by
  have h1 := (claim6_apply_modifications_no_mutation [[0, 5, 6, 0]] 0 "0|Ac|2|Ox"
    [("Ox", 39), ("Ac", 38)] 0 (by decide)).1
  have h2 := (claim6_apply_modifications_no_mutation [[0, 5, 6, 0]] 0 "-"
    [("Ox", 39), ("Ac", 38)] 0 (by decide)).2.1 (Or.inr rfl)
  exact ⟨h1.trans (by decide), h2⟩

/-- Counterexample for C2 as stated: register `TestA`, read `ptm_ids` (the
cache is built), register `TestB`, read `ptm_ids` again — the read does not
contain `TestB` even though `TestB` is registered (and visible through the
properly invalidated `mass_shifts` cache): registration never clears
`_ptm_ids`. -/
theorem claim2_counterexample :
    (let m1 := (Modifications.add_from_ms2pip_modstrings Modifications.empty
        ["TestA,1.0,opt,M"] "ptm").1
     let m2 := (Modifications.ptm_ids m1).1
     let m3 := (Modifications.add_from_ms2pip_modstrings m2 ["TestB,2.0,opt,M"] "ptm").1
     (Modifications.add_from_ms2pip_modstrings m2 ["TestB,2.0,opt,M"] "ptm").2 = none ∧
     dictGet? "TestB" ((dictGet? "ptm" m3.modifications).getD []) ≠ none ∧
     dictGet? "TestB" (Modifications.mass_shifts m3).2 ≠ none ∧
     dictGet? "TestB" (Modifications.ptm_ids m3).2 = none) := by
  decide

/-- Claim C2 amended: a successful registration eagerly clears the
name→mass-shift cache, so `mass_shifts` reads after a registration reflect
all modifications registered so far — but it leaves the name→numeric-id
cache `_ptm_ids` untouched, so a `ptm_ids` read after an earlier read and a
later registration serves stale data. -/
theorem claim2_amended_cache_invalidation (m : Modifications) (ms : List String) (mt : String)
    (h : (Modifications.add_from_ms2pip_modstrings m ms mt).2 = none) :
    (Modifications.add_from_ms2pip_modstrings m ms mt).1._mass_shifts = none ∧
    (Modifications.add_from_ms2pip_modstrings m ms mt).1._ptm_ids = m._ptm_ids := by
  obtain ⟨ha, hb, _⟩ := add_from_ms2pip_modstrings_none h
  exact ⟨ha, hb⟩

/-- Witness for C2 (amended), on a fresh registry and one registration. -/
theorem claim2_witness :
    (Modifications.add_from_ms2pip_modstrings Modifications.empty
      ["Ox,1.0,opt,M"] "ptm").1._mass_shifts = none ∧
    (Modifications.add_from_ms2pip_modstrings Modifications.empty
      ["Ox,1.0,opt,M"] "ptm").1._ptm_ids = none := by
  have h := claim2_amended_cache_invalidation Modifications.empty ["Ox,1.0,opt,M"] "ptm"
    (by decide)
  exact ⟨h.1, h.2⟩

/-- Claim C7: modification numeric ids are assigned from a counter starting
at 38 that is bumped by exactly one per registered entry, shared across all
categories and calls — each successfully registered entry is stored with
`mod_id` equal to the pre-step counter value, a successful call advances the
counter by the number of entries, and on a fresh registry the example
modstrings get ids 38 and 39 in call order. -/
theorem claim7_mod_id_counter :
    (∀ (m : Modifications) (mt mod mod_name mass_shift opt2 amino_acid : String)
      (m2 : Modifications),
      pySplit mod ',' = [mod_name, mass_shift, opt2, amino_acid] →
      processOne m mt mod = .ok m2 →
      m2._next_mod_id = m._next_mod_id + 1 ∧
      ∃ cat2 : PyDict ModEntry, dictGet? mt m2.modifications = some cat2 ∧
        ∃ entry : ModEntry, dictGet? mod_name cat2 = some entry ∧
          entry.mod_id = m._next_mod_id) ∧
    (∀ (m : Modifications) (ms : List String) (mt : String),
      (Modifications.add_from_ms2pip_modstrings m ms mt).2 = none →
      (Modifications.add_from_ms2pip_modstrings m ms mt).1._next_mod_id =
        m._next_mod_id + ms.length) ∧
    Modifications.empty._next_mod_id = 38 ∧
    dictGet? "Oxidation" (Modifications.ptm_ids
      (Modifications.add_from_ms2pip_modstrings Modifications.empty
        ["Oxidation,15.994915,opt,M", "Acetyl,42.010565,opt,N-term"] "ptm").1).2 = some 38 ∧
    dictGet? "Acetyl" (Modifications.ptm_ids
      (Modifications.add_from_ms2pip_modstrings Modifications.empty
        ["Oxidation,15.994915,opt,M", "Acetyl,42.010565,opt,N-term"] "ptm").1).2 = some 39 := by
  refine ⟨?_, ?_, rfl, by decide, by decide⟩
  · intro m mt mod mod_name mass_shift opt2 amino_acid m2 hs hok
    exact ⟨(processOne_ok hok).1, processOne_ok_entry hs hok⟩
  · intro m ms mt h
    exact (add_from_ms2pip_modstrings_none h).2.2

/-- Witness for C7: registering the two example modstrings on a fresh
registry leaves the counter at 40 (= 38 + 2). -/
theorem claim7_witness :
    (Modifications.add_from_ms2pip_modstrings Modifications.empty
      ["Oxidation,15.994915,opt,M", "Acetyl,42.010565,opt,N-term"] "ptm").1._next_mod_id = 40 := by
  have h := claim7_mod_id_counter.2.1 Modifications.empty
    ["Oxidation,15.994915,opt,M", "Acetyl,42.010565,opt,N-term"] "ptm" (by decide)
  exact h.trans (by decide)

/-- Counterexample for C8 as stated: on a fresh registry (no modifications
registered), `calc_precursor_mz` with modification string `"0|Foo"` raises
the bare dict-lookup `KeyError`, which is not the `UnknownModificationError`
the claim names. -/
theorem claim8_counterexample :
    (Modifications.calc_precursor_mz Modifications.empty (fun _ => 0) "PEPT" "0|Foo" 2).2 =
      .error (.keyError "Foo") ∧
    PyErr.keyError "Foo" ≠ PyErr.unknownModification "Foo" :=
  ⟨by decide, by decide⟩

/-- Claim C8 amended: when every odd-position token of the modification
string resolves in the current mass-shift mapping, `calc_precursor_mz`
returns `mass = fast_mass(peptide) + sum of shifts` and
`mz = (mass + charge * PROTON_MASS) / charge`; when a name is missing it
raises the uncaught dict `KeyError` (not `UnknownModificationError`). -/
theorem claim8_amended_precursor_mz (m : Modifications) (fast_mass : String → Rat)
    (peptide modifications : String) (charge : Int) (hc : charge ≠ 0) :
    (∀ total : Rat,
      sumLookups (Modifications.mass_shifts m).2 (oddIdx (pySplit modifications '|')) =
        .ok total →
      (Modifications.calc_precursor_mz m fast_mass peptide modifications charge).2 =
        .ok (fast_mass peptide + total,
          (fast_mass peptide + total + (charge : Rat) * PROTON_MASS) / (charge : Rat))) ∧
    (∀ name : String,
      sumLookups (Modifications.mass_shifts m).2 (oddIdx (pySplit modifications '|')) =
        .error name →
      (Modifications.calc_precursor_mz m fast_mass peptide modifications charge).2 =
        .error (.keyError name)) := by
  constructor
  · intro total ht
    simp only [Modifications.calc_precursor_mz]
    rw [ht]
    simp [hc]
  · intro name hn
    simp only [Modifications.calc_precursor_mz]
    rw [hn]

/-- Witness for C8 (amended): empty modification string, charge 2. -/
theorem claim8_witness :
    (Modifications.calc_precursor_mz Modifications.empty (fun _ => (100 : Rat))
      "PEPT" "" 2).2 =
      .ok (100 + 0, (100 + 0 + ((2 : Int) : Rat) * PROTON_MASS) / ((2 : Int) : Rat)) :=
  (claim8_amended_precursor_mz Modifications.empty (fun _ => (100 : Rat)) "PEPT" "" 2
    (by decide)).1 0 rfl

/-- Counterexample for C9 as stated: register `Dup` in `sptm` first (id 38),
then register `Dup` in `ptm` (id 39, the later registration).  The shared
lookup cache returns id 38 — the earlier registration — because the chain
iterates categories in fixed order (`ptm` before `sptm`) and the later
category overwrites, regardless of registration time. -/
theorem claim9_counterexample :
    (let m1 := (Modifications.add_from_ms2pip_modstrings Modifications.empty
        ["Dup,1.5,opt,M"] "sptm").1
     let m2 := (Modifications.add_from_ms2pip_modstrings m1 ["Dup,2.5,opt,M"] "ptm").1
     dictGet? "Dup" (Modifications.ptm_ids m2).2 = some 38 ∧
     dictGet? "Dup" (Modifications.ptm_ids m2).2 ≠ some 39) := by
  decide

/-- For a name bound in both halves of a two-category chain, the rebuilt
cache holds the value from the second half (the category iterated last). -/
lemma chain_lookup_last {V : Type} (dp ds : PyDict ModEntry) (f : ModEntry → V)
    (name : String) (b : ModEntry)
    (hnodup : (ds.map Prod.fst).Nodup) (hb : dictGet? name ds = some b) :
    dictGet? name (buildDict ((dp ++ ds).map (fun p => (p.1, f p.2)))) = some (f b) := by
  rw [buildDict_get]
  have hrev : ((dp ++ ds).map (fun p => (p.1, f p.2))).reverse =
      (ds.map (fun p => (p.1, f p.2))).reverse ++ (dp.map (fun p => (p.1, f p.2))).reverse := by
    rw [List.map_append, List.reverse_append]
  have hkeys : (((ds.map (fun p => (p.1, f p.2))).reverse).map Prod.fst).Nodup := by
    have hfst : (ds.map (fun p => (p.1, f p.2))).map Prod.fst = ds.map Prod.fst := by
      rw [List.map_map]
      rfl
    rw [List.map_reverse, hfst]
    exact List.nodup_reverse.mpr hnodup
  have hmem : (name, f b) ∈ (ds.map (fun p => (p.1, f p.2))).reverse := by
    rw [List.mem_reverse, List.mem_map]
    exact ⟨(name, b), dictGet_mem hb, rfl⟩
  rw [hrev, dictGet_append_left _ (dictGet_of_mem_nodup hkeys hmem)]

/-- Claim C9 amended: when the same name is registered in both categories,
the shared lookup caches return the values of the `sptm` entry — the
category iterated last in the registry's fixed category order — regardless
of which registration came later in time. -/
theorem claim9_amended_category_order_wins (m : Modifications) (dp ds : PyDict ModEntry)
    (name : String) (b : ModEntry)
    (hm : m.modifications = [("ptm", dp), ("sptm", ds)])
    (hcache1 : cacheFalsy m._ptm_ids = true)
    (hcache2 : cacheFalsy m._mass_shifts = true)
    (hnodup : (ds.map Prod.fst).Nodup)
    (_hdp : (dictGet? name dp).isSome)
    (hb : dictGet? name ds = some b) :
    dictGet? name (Modifications.ptm_ids m).2 = some b.mod_id ∧
    dictGet? name (Modifications.mass_shifts m).2 = some b.mass_shift := by
  have hall : Modifications.allModifications m = dp ++ ds := by
    simp [Modifications.allModifications, hm]
  constructor
  · simp only [Modifications.ptm_ids, hcache1, if_true, hall]
    exact chain_lookup_last dp ds (fun e => e.mod_id) name b hnodup hb
  · simp only [Modifications.mass_shifts, hcache2, if_true, hall]
    exact chain_lookup_last dp ds (fun e => e.mass_shift) name b hnodup hb

/-- Witness for C9 (amended): a registry whose `ptm` category holds
`Dup ↦ id 39` and whose `sptm` category holds `Dup ↦ id 38`; the shared id
lookup returns 38. -/
theorem claim9_witness :
    dictGet? "Dup" (Modifications.ptm_ids
      ⟨[("ptm", [("Dup", ⟨5 / 2, "M", 9, 39⟩)]), ("sptm", [("Dup", ⟨3 / 2, "M", 9, 38⟩)])],
        none, none, 40⟩).2 = some 38 := by
  have h := claim9_amended_category_order_wins
    ⟨[("ptm", [("Dup", ⟨5 / 2, "M", 9, 39⟩)]), ("sptm", [("Dup", ⟨3 / 2, "M", 9, 38⟩)])],
      none, none, 40⟩
    [("Dup", ⟨5 / 2, "M", 9, 39⟩)] [("Dup", ⟨3 / 2, "M", 9, 38⟩)] "Dup" ⟨3 / 2, "M", 9, 38⟩
    rfl rfl rfl (by simp) rfl rfl
  exact h.1
